import Mathlib

/-!
Verification of the tile-coding core declared in `src/extern/tiles.h`
(`tiles` and `hash_UNH`).  The repository ships only the header; the
function bodies are modelled from the specification, faithful to its
words, and all behavioural facts below are settled against that model.

Conventions of the shallow embedding:
  - C `double` inputs are modelled as rationals (`ℚ`): the spec only
    floors and offsets them, which is exact arithmetic.
  - C `int` / `long` values are modelled as `Int`; the narrowing
    `long → int` conversion at the return of `hash_UNH` (its declared
    return type in the header is `int`) is modelled explicitly by
    `toCInt`, two's-complement wrap-around into 32-bit signed range.
  - The process-wide pseudo-random table is an explicit parameter
    `table : Nat → Nat`, so that determinism statements can quantify
    over "the identical process-wide random table".
  - The caller-provided output buffer is an explicit `List Int`; a call
    returns `some` of the updated buffer, or `none` on a precondition
    violation (the fail-fast rejection the spec mandates), in which case
    nothing was written.
-/

/-- Maximum number of variables in a grid-tiling (`#define MAX_NUM_VARS 20`). -/
def MAX_NUM_VARS : Nat := 20

/-- Maximum number of hashing coordinates (`#define MAX_NUM_COORDS 100`). -/
def MAX_NUM_COORDS : Nat := 100

/-- Largest 32-bit signed integer (`#define MaxLONGINT 2147483647`). -/
def MaxLONGINT : Int := 2147483647

/-- Two's-complement conversion of a mathematical integer into the range
of a 32-bit signed C `int`: reduce modulo `2^32` and re-centre into
`[-2^31, 2^31)`.  This models the implicit `long → int` narrowing at the
return of `hash_UNH`, whose declared return type is `int`. -/
def toCInt (v : Int) : Int :=
  if v % 4294967296 < 2147483648 then v % 4294967296 else v % 4294967296 - 4294967296

/-- Modelled from the spec: size of the process-wide pseudo-random table
used by the Hasher.  The exact size is an implementation-specific tuning
parameter (spec §9); 2048 entries is the documented classic choice. -/
def TABLE_SIZE : Nat := 2048

/-- Modelled from the spec: one concrete well-distributed choice of the
"fixed, precomputed pseudo-random permutation/table (seeded once at
process start, independent of any particular call)" (§4.1).  The exact
mixing constants are implementation-specific (§9); the theorems below
quantify over an arbitrary table wherever the spec does. -/
def defaultTable (k : Nat) : Nat := (k * 2654435761 + 104729) % 4294967296

/-- Modelled from the spec: the per-element combination step of the
Hasher — "combine a fixed, precomputed pseudo-random permutation/table
with each input integer and the increment" (§4.1).  Element `x` at
position `i` selects the table entry at `(x + increment * i) mod
TABLE_SIZE`. -/
def hashIndex (increment : Int) (i : Nat) (x : Int) : Nat :=
  ((x + increment * Int.ofNat i) % (TABLE_SIZE : Int)).toNat

/-- Modelled from the spec: the accumulation over the tuple —
"accumulating via a multiplicative/additive mixing step per element"
(§4.1): the selected table entries are summed. -/
def hashSum (table : Nat → Nat) (increment : Int) : Nat → List Int → Nat
  | _, [] => 0
  | i, x :: xs => table (hashIndex increment i x) + hashSum table increment (i + 1) xs

/-- Modelled from the spec: `hash_UNH` (§4.1).  Maps a tuple of
`num_ints` integers, a modulus `m` and an `increment` salt to one index:
accumulate table entries over the tuple, "then reduce the accumulated
value into `[0, m)`" by taking the remainder modulo `m`; the result is
returned through the C `int` return type, modelled by `toCInt`.
Rejected ("undefined/rejected", §4.1) if the tuple is longer than
`MAX_NUM_COORDS` or `m ≤ 0`. -/
def hash_UNH (table : Nat → Nat) (ints : List Int) (m : Int) (increment : Int) :
    Option Int :=
  if ints.length ≤ MAX_NUM_COORDS ∧ 0 < m then
    some (toCInt ((hashSum table increment 0 ints : Int) % m))
  else none

/-- Modelled from the spec: the per-dimension displacement constants —
"the classic asymmetric odd-number displacement sequence (1, 3, 5, 7, …
across dimensions)" (§4.2 step 2): dimension `i` uses `2*i + 1`. -/
def dispConst (i : Nat) : Int := 2 * Int.ofNat i + 1

/-- Modelled from the spec: the offset-quantized coordinate of float
dimension `i` for tiling `t` (§4.2 steps 1–2): the float (already in
grid units of width 1.0) is offset by the fractional tiling-specific
displacement `(dispConst i * t) / num_tilings` and floored to the
integer grid cell. -/
def tileCoord (num_tilings : Int) (t : Nat) (i : Nat) (f : ℚ) : Int :=
  Int.floor (f + ((dispConst i * Int.ofNat t : Int) : ℚ) / ((num_tilings : Int) : ℚ))

/-- Modelled from the spec: the offset-quantized coordinates of all
float dimensions, dimension index threaded from `i`. -/
def floatCoords (num_tilings : Int) (t : Nat) : Nat → List ℚ → List Int
  | _, [] => []
  | i, f :: fs => tileCoord num_tilings t i f :: floatCoords num_tilings t (i + 1) fs

/-- Modelled from the spec: the coordinate tuple of tiling `t` (§4.2
step 3): "[offset-quantized float coordinates…, tiling index `t`, raw
integer inputs…]". -/
def tileTuple (num_tilings : Int) (floats : List ℚ) (ints : List Int) (t : Nat) :
    List Int :=
  floatCoords num_tilings t 0 floats ++ Int.ofNat t :: ints

/-- Modelled from the spec: the loop of `tiles` over tilings (§4.2 steps
4–5): starting at tiling `t`, for `n` further tilings, hash the tiling's
coordinate tuple with modulus `memory_size` and increment the tiling
index, and write the resulting index into output slot `t`; a hash
rejection aborts the whole call with nothing further written. -/
def tilesLoop (table : Nat → Nat) (memory_size : Int) (tup : Nat → List Int) :
    Nat → Nat → List Int → Option (List Int)
  | _, 0, buf => some buf
  | t, n + 1, buf =>
    match hash_UNH table (tup t) memory_size (Int.ofNat t) with
    | none => none
    | some v => tilesLoop table memory_size tup (t + 1) n (buf.set t v)

/-- Modelled from the spec: the caller contract of `tiles` (§4.2):
output buffer capacity ≥ `num_tilings`, `1 ≤ num_tilings`,
`0 < memory_size`, at most `MAX_NUM_VARS` floats and ints, and
`num_floats + num_ints + 2 ≤ MAX_NUM_COORDS`. -/
def tilesValid (bufLen : Nat) (num_tilings memory_size : Int)
    (num_floats num_ints : Nat) : Prop :=
  1 ≤ num_tilings ∧ 0 < memory_size ∧ num_tilings.toNat ≤ bufLen ∧
    num_floats ≤ MAX_NUM_VARS ∧ num_ints ≤ MAX_NUM_VARS ∧
    num_floats + num_ints + 2 ≤ MAX_NUM_COORDS

instance (bufLen : Nat) (num_tilings memory_size : Int)
    (num_floats num_ints : Nat) :
    Decidable (tilesValid bufLen num_tilings memory_size num_floats num_ints) := by
  unfold tilesValid
  infer_instance

/-- Modelled from the spec: `tiles` (§4.2).  Checks the caller contract
(fail fast on violation, returning `none` with nothing written), then
for each tiling `t` in `[0, num_tilings)` assembles the coordinate
tuple, hashes it with modulus `memory_size` and increment `t`, and
writes the index into slot `t` of the caller's buffer. -/
def tiles (table : Nat → Nat) (the_tiles : List Int) (num_tilings memory_size : Int)
    (floats : List ℚ) (ints : List Int) : Option (List Int) :=
  if tilesValid the_tiles.length num_tilings memory_size floats.length ints.length then
    tilesLoop table memory_size (tileTuple num_tilings floats ints) 0
      num_tilings.toNat the_tiles
  else none

/-- The pure value of the tile index of tiling `t` (what `hash_UNH`
returns on the tuple of tiling `t` when its preconditions hold). -/
def tileIndex (table : Nat → Nat) (num_tilings memory_size : Int)
    (floats : List ℚ) (ints : List Int) (t : Nat) : Int :=
  toCInt ((hashSum table (Int.ofNat t) 0 (tileTuple num_tilings floats ints t) : Int) %
    memory_size)

/-- Pure description of the write pattern of the loop of `tiles`:
starting at slot `t`, write `g t`, `g (t + 1)`, … into `n` consecutive
slots of the buffer. -/
def writeAll (g : Nat → Int) : Nat → Nat → List Int → List Int
  | _, 0, buf => buf
  | t, n + 1, buf => writeAll g (t + 1) n (buf.set t (g t))

/-! ### Basic facts about the `int` narrowing and the hash -/

theorem toCInt_lb (v : Int) : -2147483648 ≤ toCInt v := by
  unfold toCInt
  have h0 : (0 : Int) ≤ v % 4294967296 :=
    Int.emod_nonneg v (by norm_num)
  split <;> omega

theorem toCInt_ub (v : Int) : toCInt v ≤ MaxLONGINT := by
  unfold toCInt MaxLONGINT
  have h1 : v % 4294967296 < 4294967296 :=
    Int.emod_lt_of_pos v (by norm_num)
  split <;> omega

theorem toCInt_eq_self (v : Int) (h0 : 0 ≤ v) (h1 : v < 2147483648) :
    toCInt v = v := by
  unfold toCInt
  rw [Int.emod_eq_of_lt h0 (by omega)]
  simp [h1]

theorem hash_UNH_some (table : Nat → Nat) (ints : List Int) (m increment : Int)
    (hlen : ints.length ≤ MAX_NUM_COORDS) (hm : 0 < m) :
    hash_UNH table ints m increment =
      some (toCInt ((hashSum table increment 0 ints : Int) % m)) := by
  unfold hash_UNH
  rw [if_pos ⟨hlen, hm⟩]

theorem hash_UNH_mem_range (table : Nat → Nat) (ints : List Int) (m increment : Int)
    (hlen : ints.length ≤ MAX_NUM_COORDS) (hm : 0 < m) (hm2 : m ≤ MaxLONGINT) :
    ∀ v, hash_UNH table ints m increment = some v → 0 ≤ v ∧ v < m := by
  intro v hv
  rw [hash_UNH_some table ints m increment hlen hm] at hv
  have h0 : (0 : Int) ≤ (hashSum table increment 0 ints : Int) % m :=
    Int.emod_nonneg _ (by omega)
  have h1 : (hashSum table increment 0 ints : Int) % m < m :=
    Int.emod_lt_of_pos _ hm
  rw [toCInt_eq_self _ h0 (by unfold MaxLONGINT at hm2; omega)] at hv
  have hv2 := Option.some.inj hv
  omega

/-- C2 counterexample: with the concrete default table, the single-element
tuple `[1]`, the positive modulus `m = 2^33` (legal on a platform with
64-bit `long`) and increment `0`, all preconditions of the claim hold,
yet the value returned through the C `int` return type is negative, so
it does not lie in `[0, m)`. -/
theorem hash_UNH_range_counterexample :
    (0 : Int) < 8589934592 ∧ ([(1 : Int)]).length ≤ MAX_NUM_COORDS ∧
      hash_UNH defaultTable [(1 : Int)] 8589934592 0 = some (-1640426806) ∧
      ¬ (0 : Int) ≤ -1640426806 := by
  refine ⟨by norm_num, by decide, ?_, by norm_num⟩
  decide

/-- C2 (amended): for a modulus `0 < m ≤ MaxLONGINT` (a modulus
representable in the target index range, §4.1) and a tuple of at most
`MAX_NUM_COORDS` integers, `hash_UNH` returns a single integer in
`[0, m)`, and two calls with identical inputs, modulus, increment and
identical process-wide random table return the same value. -/
theorem hash_UNH_range_deterministic (table table' : Nat → Nat)
    (ints ints' : List Int) (m m' increment increment' : Int)
    (hlen : ints.length ≤ MAX_NUM_COORDS) (hm : 0 < m) (hm2 : m ≤ MaxLONGINT)
    (ht : table' = table) (hi : ints' = ints) (hmm : m' = m)
    (hinc : increment' = increment) :
    (∀ v, hash_UNH table ints m increment = some v → 0 ≤ v ∧ v < m) ∧
      hash_UNH table' ints' m' increment' = hash_UNH table ints m increment := by
  subst ht hi hmm hinc
  exact ⟨hash_UNH_mem_range _ _ _ _ hlen hm hm2, rfl⟩

theorem hash_UNH_range_deterministic_witness :
    (∀ v, hash_UNH defaultTable [(1 : Int), 2, 3] 1024 0 = some v →
        0 ≤ v ∧ v < 1024) ∧
      hash_UNH defaultTable [(1 : Int), 2, 3] 1024 0 =
        hash_UNH defaultTable [(1 : Int), 2, 3] 1024 0 :=
  hash_UNH_range_deterministic defaultTable defaultTable [(1 : Int), 2, 3]
    [(1 : Int), 2, 3] 1024 1024 0 0 (by decide) (by norm_num) (by decide)
    rfl rfl rfl rfl

/-- C9: `hash_UNH` returns normally exactly when its preconditions hold:
it is rejected precisely if the tuple length exceeds `MAX_NUM_COORDS` or
the modulus is not positive. -/
theorem hash_UNH_isSome_iff (table : Nat → Nat) (ints : List Int)
    (m increment : Int) :
    (hash_UNH table ints m increment).isSome ↔
      ints.length ≤ MAX_NUM_COORDS ∧ 0 < m := by
  unfold hash_UNH
  split
  · next h => simpa using h
  · next h => simpa using h

/-- C10: any value returned by `hash_UNH` passes through the C `int`
return type declared in the header, hence is at most
`MaxLONGINT = 2^31 - 1`: no index at or above `2^31` can be returned
through this interface, even when the `long` modulus exceeds it. -/
theorem hash_UNH_le_MaxLONGINT (table : Nat → Nat) (ints : List Int)
    (m increment v : Int) (h : hash_UNH table ints m increment = some v) :
    v ≤ MaxLONGINT ∧ ¬ 2147483648 ≤ v := by
  unfold hash_UNH at h
  split at h
  · next hc =>
    have hv : v = toCInt ((hashSum table increment 0 ints : Int) % m) := by
      simpa using h.symm
    have := toCInt_ub ((hashSum table increment 0 ints : Int) % m)
    unfold MaxLONGINT at this ⊢
    omega
  · exact absurd h (by simp)

theorem hash_UNH_le_MaxLONGINT_witness :
    (-1640426806 : Int) ≤ MaxLONGINT ∧ ¬ (2147483648 : Int) ≤ -1640426806 :=
  hash_UNH_le_MaxLONGINT defaultTable [(1 : Int)] 8589934592 0 (-1640426806)
    (by decide)

/-! ### The write pattern of the tiling loop -/

theorem writeAll_length (g : Nat → Int) :
    ∀ n t buf, (writeAll g t n buf).length = buf.length := by
  intro n
  induction n with
  | zero => intro t buf; rfl
  | succ n ih =>
    intro t buf
    show (writeAll g (t + 1) n (buf.set t (g t))).length = buf.length
    rw [ih, List.length_set]

theorem writeAll_get?_frame (g : Nat → Int) :
    ∀ n t buf j, j < t ∨ t + n ≤ j →
      (writeAll g t n buf).get? j = buf.get? j := by
  intro n
  induction n with
  | zero => intro t buf j _; rfl
  | succ n ih =>
    intro t buf j hj
    show (writeAll g (t + 1) n (buf.set t (g t))).get? j = buf.get? j
    rw [ih (t + 1) (buf.set t (g t)) j (by omega)]
    exact List.get?_set_ne (g t) buf (by omega)

theorem writeAll_get?_content (g : Nat → Int) :
    ∀ n t buf j, t + n ≤ buf.length → t ≤ j → j < t + n →
      (writeAll g t n buf).get? j = some (g j) := by
  intro n
  induction n with
  | zero => intro t buf j _ _ h2; omega
  | succ n ih =>
    intro t buf j hlen h1 h2
    show (writeAll g (t + 1) n (buf.set t (g t))).get? j = some (g j)
    rcases Nat.eq_or_lt_of_le h1 with heq | hlt
    · subst heq
      rw [writeAll_get?_frame g n (t + 1) _ t (by omega)]
      exact List.get?_set_eq_of_lt (g t) (by omega)
    · exact ih (t + 1) (buf.set t (g t)) j (by rw [List.length_set]; omega)
        hlt (by omega)

theorem tilesLoop_eq_writeAll (table : Nat → Nat) (memory_size : Int)
    (tup : Nat → List Int) (g : Nat → Int)
    (H : ∀ t, hash_UNH table (tup t) memory_size (Int.ofNat t) = some (g t)) :
    ∀ n t buf, tilesLoop table memory_size tup t n buf =
      some (writeAll g t n buf) := by
  intro n
  induction n with
  | zero => intro t buf; rfl
  | succ n ih =>
    intro t buf
    unfold tilesLoop writeAll
    rw [H t]
    exact ih (t + 1) (buf.set t (g t))

/-! ### Structure of `tiles` under the caller contract -/

theorem floatCoords_length (num_tilings : Int) (t : Nat) :
    ∀ fs i, (floatCoords num_tilings t i fs).length = fs.length := by
  intro fs
  induction fs with
  | nil => intro i; rfl
  | cons f fs ih =>
    intro i
    show (tileCoord num_tilings t i f :: floatCoords num_tilings t (i + 1) fs).length
      = fs.length + 1
    rw [List.length_cons, ih (i + 1)]

theorem floatCoords_get? (num_tilings : Int) (t : Nat) :
    ∀ fs i j, (floatCoords num_tilings t i fs).get? j =
      Option.map (fun f => tileCoord num_tilings t (i + j) f) (fs.get? j) := by
  intro fs
  induction fs with
  | nil => intro i j; rfl
  | cons f fs ih =>
    intro i j
    cases j with
    | zero => rfl
    | succ j =>
      show (floatCoords num_tilings t (i + 1) fs).get? j =
        Option.map (fun f => tileCoord num_tilings t (i + (j + 1)) f) (fs.get? j)
      rw [ih (i + 1) j]
      have : i + 1 + j = i + (j + 1) := by omega
      rw [this]

theorem tileTuple_length (num_tilings : Int) (floats : List ℚ) (ints : List Int)
    (t : Nat) :
    (tileTuple num_tilings floats ints t).length =
      floats.length + 1 + ints.length := by
  unfold tileTuple
  rw [List.length_append, floatCoords_length, List.length_cons]
  omega

theorem hash_UNH_tileTuple (table : Nat → Nat) (num_tilings memory_size : Int)
    (floats : List ℚ) (ints : List Int) (t : Nat)
    (hf : floats.length ≤ MAX_NUM_VARS) (hi : ints.length ≤ MAX_NUM_VARS)
    (hm : 0 < memory_size) :
    hash_UNH table (tileTuple num_tilings floats ints t) memory_size (Int.ofNat t)
      = some (tileIndex table num_tilings memory_size floats ints t) := by
  unfold tileIndex
  exact hash_UNH_some table _ memory_size (Int.ofNat t)
    (by rw [tileTuple_length]; unfold MAX_NUM_VARS at hf hi
        unfold MAX_NUM_COORDS; omega) hm

theorem tiles_eq_writeAll (table : Nat → Nat) (the_tiles : List Int)
    (num_tilings memory_size : Int) (floats : List ℚ) (ints : List Int)
    (h : tilesValid the_tiles.length num_tilings memory_size floats.length
      ints.length) :
    tiles table the_tiles num_tilings memory_size floats ints =
      some (writeAll (tileIndex table num_tilings memory_size floats ints) 0
        num_tilings.toNat the_tiles) := by
  unfold tiles
  rw [if_pos h]
  exact tilesLoop_eq_writeAll table memory_size _ _
    (fun t => hash_UNH_tileTuple table num_tilings memory_size floats ints t
      h.2.2.2.1 h.2.2.2.2.1 h.2.1) num_tilings.toNat 0 the_tiles

theorem tiles_some_inv (table : Nat → Nat) (the_tiles : List Int)
    (num_tilings memory_size : Int) (floats : List ℚ) (ints : List Int)
    (out : List Int)
    (h : tiles table the_tiles num_tilings memory_size floats ints = some out) :
    tilesValid the_tiles.length num_tilings memory_size floats.length
        ints.length ∧
      out = writeAll (tileIndex table num_tilings memory_size floats ints) 0
        num_tilings.toNat the_tiles := by
  by_cases hv : tilesValid the_tiles.length num_tilings memory_size
      floats.length ints.length
  · refine ⟨hv, ?_⟩
    rw [tiles_eq_writeAll table the_tiles num_tilings memory_size floats ints hv]
      at h
    exact (Option.some.inj h).symm
  · exact absurd h (by unfold tiles; rw [if_neg hv]; simp)

theorem tileIndex_range (table : Nat → Nat) (num_tilings memory_size : Int)
    (floats : List ℚ) (ints : List Int) (t : Nat) (hm : 0 < memory_size)
    (hm2 : memory_size ≤ MaxLONGINT) :
    0 ≤ tileIndex table num_tilings memory_size floats ints t ∧
      tileIndex table num_tilings memory_size floats ints t < memory_size := by
  unfold tileIndex
  have h0 : (0 : Int) ≤
      (hashSum table (Int.ofNat t) 0 (tileTuple num_tilings floats ints t) : Int) %
        memory_size :=
    Int.emod_nonneg _ (by omega)
  have h1 :
      (hashSum table (Int.ofNat t) 0 (tileTuple num_tilings floats ints t) : Int) %
        memory_size < memory_size :=
    Int.emod_lt_of_pos _ hm
  rw [toCInt_eq_self _ h0 (by unfold MaxLONGINT at hm2; omega)]
  exact ⟨h0, h1⟩

/-! ### The claims -/

/-- C1: for every accepted call to `tiles` (`num_tilings ≥ 1`,
`memory_size > 0`, inputs within the capacity bounds, with `memory_size`
representable in the C `int` parameter type), every tile index written
into the output buffer — the first `num_tilings` slots — lies in
`[0, memory_size)`. -/
theorem tiles_range (table : Nat → Nat) (the_tiles : List Int)
    (num_tilings memory_size : Int) (floats : List ℚ) (ints : List Int)
    (out : List Int)
    (h : tiles table the_tiles num_tilings memory_size floats ints = some out)
    (hms : memory_size ≤ MaxLONGINT) :
    ∀ t, t < num_tilings.toNat → ∀ v, out.get? t = some v →
      0 ≤ v ∧ v < memory_size := by
  obtain ⟨hv, hout⟩ :=
    tiles_some_inv table the_tiles num_tilings memory_size floats ints out h
  intro t ht v hvt
  subst hout
  rw [writeAll_get?_content _ num_tilings.toNat 0 the_tiles t
    (by have := hv.2.2.1; omega) (Nat.zero_le t) (by omega)] at hvt
  have hveq := Option.some.inj hvt
  subst hveq
  exact tileIndex_range table num_tilings memory_size floats ints t hv.2.1 hms

theorem tiles_range_witness : (0 : Int) ≤ 679 ∧ (679 : Int) < 1024 :=
  tiles_range defaultTable [0, 0, 0, 0] 4 1024 [] [5] [679, 521, 363, 205]
    (by decide) (by decide) 0 (by decide) 679 (by decide)

/-- C3: `tiles` is deterministic — two calls with the same float inputs,
int inputs, `num_tilings`, `memory_size` and the same process-wide hash
table state write bit-identical contents into the first `num_tilings`
slots of their (possibly different) output buffers. -/
theorem tiles_deterministic (table : Nat → Nat) (buf1 buf2 : List Int)
    (num_tilings memory_size : Int) (floats : List ℚ) (ints : List Int)
    (out1 out2 : List Int)
    (h1 : tiles table buf1 num_tilings memory_size floats ints = some out1)
    (h2 : tiles table buf2 num_tilings memory_size floats ints = some out2) :
    out1.take num_tilings.toNat = out2.take num_tilings.toNat := by
  obtain ⟨hv1, ho1⟩ :=
    tiles_some_inv table buf1 num_tilings memory_size floats ints out1 h1
  obtain ⟨hv2, ho2⟩ :=
    tiles_some_inv table buf2 num_tilings memory_size floats ints out2 h2
  subst ho1 ho2
  apply List.ext_get?
  intro j
  by_cases hj : j < num_tilings.toNat
  · rw [List.get?_take hj, List.get?_take hj,
      writeAll_get?_content _ num_tilings.toNat 0 buf1 j
        (by have := hv1.2.2.1; omega) (Nat.zero_le j) (by omega),
      writeAll_get?_content _ num_tilings.toNat 0 buf2 j
        (by have := hv2.2.2.1; omega) (Nat.zero_le j) (by omega)]
  · rw [List.get?_len_le (by rw [List.length_take]; omega),
      List.get?_len_le (by rw [List.length_take]; omega)]

theorem tiles_deterministic_witness :
    ([5, 7] : List Int).take (2 : Int).toNat =
      ([5, 7, 9] : List Int).take (2 : Int).toNat :=
  tiles_deterministic defaultTable [0, 0] [9, 9, 9] 2 8 [] [3] [5, 7] [5, 7, 9]
    (by decide) (by decide)

/-- C4: an accepted call to `tiles` with `num_tilings = k` writes exactly
`k` tile indices, one into each of the output buffer's slots `0` through
`k - 1`, and modifies no other memory: the buffer keeps its length, every
slot at or beyond `k` keeps its previous contents, and the model has no
other state (the hasher's table is read-only). -/
theorem tiles_cardinality_frame (table : Nat → Nat) (buf : List Int)
    (num_tilings memory_size : Int) (floats : List ℚ) (ints : List Int)
    (out : List Int)
    (h : tiles table buf num_tilings memory_size floats ints = some out) :
    out.length = buf.length ∧
      (∀ t, t < num_tilings.toNat →
        out.get? t = some (tileIndex table num_tilings memory_size floats ints t)) ∧
      (∀ j, num_tilings.toNat ≤ j → out.get? j = buf.get? j) := by
  obtain ⟨hv, hout⟩ :=
    tiles_some_inv table buf num_tilings memory_size floats ints out h
  subst hout
  refine ⟨writeAll_length _ num_tilings.toNat 0 buf, ?_, ?_⟩
  · intro t ht
    exact writeAll_get?_content _ num_tilings.toNat 0 buf t
      (by have := hv.2.2.1; omega) (Nat.zero_le t) (by omega)
  · intro j hj
    exact writeAll_get?_frame _ num_tilings.toNat 0 buf j (Or.inr (by omega))

theorem tiles_cardinality_frame_witness :
    ([5, 7, 9] : List Int).length = ([9, 9, 9] : List Int).length ∧
      ([5, 7, 9] : List Int).get? 1 = some (tileIndex defaultTable 2 8 [] [3] 1) ∧
      ([5, 7, 9] : List Int).get? 2 = ([9, 9, 9] : List Int).get? 2 := by
  have h := tiles_cardinality_frame defaultTable [9, 9, 9] 2 8 [] [3] [5, 7, 9]
    (by decide)
  exact ⟨h.1, h.2.1 1 (by decide), h.2.2 2 (by decide)⟩

/-- C5: for each tiling `t` of an accepted call, `tiles` assembles the
coordinate tuple in the order [offset-quantized float coordinates…,
tiling index `t`, raw integer inputs…], hashes exactly that tuple with
the hasher using modulus `memory_size` and increment `t`, and writes the
index the hasher returns into output slot `t`. -/
theorem tiles_pipeline (table : Nat → Nat) (buf : List Int)
    (num_tilings memory_size : Int) (floats : List ℚ) (ints : List Int)
    (out : List Int)
    (h : tiles table buf num_tilings memory_size floats ints = some out) :
    ∀ t, t < num_tilings.toNat →
      hash_UNH table
          (floatCoords num_tilings t 0 floats ++ Int.ofNat t :: ints)
          memory_size (Int.ofNat t) =
        some (tileIndex table num_tilings memory_size floats ints t) ∧
      out.get? t = some (tileIndex table num_tilings memory_size floats ints t) := by
  obtain ⟨hv, hout⟩ :=
    tiles_some_inv table buf num_tilings memory_size floats ints out h
  subst hout
  intro t ht
  constructor
  · exact hash_UNH_tileTuple table num_tilings memory_size floats ints t
      hv.2.2.2.1 hv.2.2.2.2.1 hv.2.1
  · exact writeAll_get?_content _ num_tilings.toNat 0 buf t
      (by have := hv.2.2.1; omega) (Nat.zero_le t) (by omega)

theorem tiles_pipeline_witness :
    (hash_UNH defaultTable
        (floatCoords 2 1 0 [] ++ Int.ofNat 1 :: [(3 : Int)]) 8 (Int.ofNat 1) =
      some (tileIndex defaultTable 2 8 [] [3] 1)) ∧
      ([5, 7] : List Int).get? 1 = some (tileIndex defaultTable 2 8 [] [3] 1) :=
  tiles_pipeline defaultTable [0, 0] 2 8 [] [3] [5, 7] (by decide) 1 (by decide)

/-- C6: the coordinate of float dimension `i` in the tuple of tiling `t`
is the floor of the float (in grid units of width 1.0) offset by the
fractional displacement `(displacement constant * t) / num_tilings`,
where the per-dimension displacement constants follow the asymmetric
odd-number sequence `1, 3, 5, 7, …` across dimensions
(`dispConst i = 2 * i + 1`).  Since the coordinate must be an integer,
the displacement is applied under the floor. -/
theorem tiles_quantize_displacement (num_tilings : Int) (floats : List ℚ)
    (ints : List Int) (t i : Nat) (hi : i < floats.length) :
    (tileTuple num_tilings floats ints t).get? i =
        some (Int.floor (floats.get ⟨i, hi⟩ +
          ((2 * Int.ofNat i + 1) * Int.ofNat t : Int) / (num_tilings : ℚ))) ∧
      dispConst i = 2 * Int.ofNat i + 1 := by
  constructor
  · unfold tileTuple
    rw [List.get?_append (by rw [floatCoords_length]; exact hi),
      floatCoords_get?, List.get?_eq_get hi]
    simp only [Option.map_some', Nat.zero_add]
    rfl
  · rfl

theorem tiles_quantize_displacement_witness :
    (tileTuple 4 [(37 : ℚ)/10] [] 1).get? 0 =
        some (Int.floor (([(37 : ℚ)/10]).get ⟨0, by decide⟩ +
          ((2 * Int.ofNat 0 + 1) * Int.ofNat 1 : Int) / ((4 : Int) : ℚ))) ∧
      dispConst 0 = 2 * Int.ofNat 0 + 1 :=
  tiles_quantize_displacement 4 [(37 : ℚ)/10] [] 1 0 (by decide)

/-- C7: `tiles` never produces a partial result — every call is either
rejected (`none`, nothing written) or fully populates all `num_tilings`
output slots with the per-tiling indices; no execution writes only some
of the slots. -/
theorem tiles_no_partial (table : Nat → Nat) (buf : List Int)
    (num_tilings memory_size : Int) (floats : List ℚ) (ints : List Int) :
    tiles table buf num_tilings memory_size floats ints = none ∨
      ∃ out, tiles table buf num_tilings memory_size floats ints = some out ∧
        out.take num_tilings.toNat =
          (List.range num_tilings.toNat).map
            (tileIndex table num_tilings memory_size floats ints) := by
  by_cases hv : tilesValid buf.length num_tilings memory_size floats.length
    ints.length
  · right
    refine ⟨_, tiles_eq_writeAll table buf num_tilings memory_size floats ints hv,
      ?_⟩
    apply List.ext_get?
    intro j
    by_cases hj : j < num_tilings.toNat
    · rw [List.get?_take hj,
        writeAll_get?_content _ num_tilings.toNat 0 buf j
          (by have := hv.2.2.1; omega) (Nat.zero_le j) (by omega),
        List.get?_map, List.get?_range hj]
      rfl
    · rw [List.get?_len_le (by rw [List.length_take]; omega),
        List.get?_len_le (by rw [List.length_map, List.length_range]; omega)]
  · left
    unfold tiles
    rw [if_neg hv]

/-- C8 counterexample: the claim asserts that `MAX_NUM_VARS` floats and
`0` ints together with the 2 bookkeeping slots exactly fill
`MAX_NUM_COORDS`; with the header's constants `20 + 0 + 2 = 22 ≠ 100`. -/
theorem tiles_boundary_counterexample :
    ¬ (MAX_NUM_VARS + 0 + 2 = MAX_NUM_COORDS) := by decide

/-- C8 (amended): a call to `tiles` with `num_floats = MAX_NUM_VARS` and
`num_ints = 0` — whose sum plus 2 bookkeeping slots is within
`MAX_NUM_COORDS` — succeeds, while a call with
`num_floats = MAX_NUM_VARS + 1` is rejected. -/
theorem tiles_boundary (table : Nat → Nat) (buf : List Int)
    (num_tilings memory_size : Int) (fs gs : List ℚ)
    (h1 : 1 ≤ num_tilings) (h2 : 0 < memory_size)
    (hbuf : num_tilings.toNat ≤ buf.length)
    (hfs : fs.length = MAX_NUM_VARS) (hgs : gs.length = MAX_NUM_VARS + 1) :
    (tiles table buf num_tilings memory_size fs []).isSome ∧
      tiles table buf num_tilings memory_size gs [] = none := by
  constructor
  · rw [tiles_eq_writeAll table buf num_tilings memory_size fs []
      ⟨h1, h2, hbuf, by rw [hfs], by decide, by rw [hfs]; decide⟩]
    rfl
  · unfold tiles
    rw [if_neg]
    intro hv
    have := hv.2.2.2.1
    rw [hgs] at this
    exact absurd this (by decide)

theorem tiles_boundary_witness :
    (tiles defaultTable [0] 1 2 (List.replicate 20 0) []).isSome ∧
      tiles defaultTable [0] 1 2 (List.replicate 21 0) [] = none :=
  tiles_boundary defaultTable [0] 1 2 (List.replicate 20 0) (List.replicate 21 0)
    (by norm_num) (by norm_num) (by decide)
    (by simp [MAX_NUM_VARS]) (by simp [MAX_NUM_VARS])
